import Mathlib

/-!
Shallow embedding of the carbonzipper core (zipper/types/response.go,
the HTTP retry helper, and the gRPC group client) together with theorems
settling the specification claims about it.

Modelling conventions:
* A float64 sample is `Option ℚ`: `none` models NaN (a gap), `some q` a
  non-NaN payload.  The merge code never computes with sample values —
  it only tests `math.IsNaN` and copies — so the carrier of non-NaN
  payloads is irrelevant to fidelity.
* Go `int64` timestamps are `Int`; Go integer division/remainder
  (truncation toward zero) are `Int.tdiv` / `Int.tmod`.
* A Go runtime panic (index out of range, nil-map/nil-pointer
  dereference, division by zero) is an explicit `panic`-style outcome
  constructor, and a non-terminating Go loop an explicit `hang`
  constructor, so abnormal behaviour is visible in the model.
-/

namespace Carbonzipper

/-- A float64 sample: `none` models NaN (a gap), `some q` a non-NaN value. -/
abbrev Sample := Option ℚ

/-- The NaN sample (`math.NaN()`). -/
def nan : Sample := none

/-- Embedding of `protov3.FetchResponse` with the fields the fetch merge
reads, writes or swaps (the spec's FetchMetric data model). -/
structure FetchResponse where
  name : String
  startTime : Int
  stopTime : Int
  stepTime : Int
  consolidationFunc : String
  xFilesFactor : ℚ
  values : List Sample
  appliedFunctions : List String
deriving DecidableEq

/-- `swapFetchResponses` (response.go:93-102): exchanges each field of the
two metrics in place; since every modelled field is swapped, the pure
transform is the transposition of the pair. -/
def swapFetchResponses (m1 m2 : FetchResponse) : FetchResponse × FetchResponse :=
  (m2, m1)

/-- The two merge error sentinels of the fetch pair-merge. -/
inductive MergeError where
  | lengthMismatch
  | startTimeMismatch
deriving DecidableEq

/-- Outcome of `mergeFetchResponses`: both metrics are mutated through
pointers, so ok/err carry the final state of both; `panic` is a Go
runtime panic and `hang` a non-terminating Go loop. -/
inductive MergeOutcome where
  | ok (m1 m2 : FetchResponse)
  | err (e : MergeError) (m1 m2 : FetchResponse)
  | panic
  | hang
deriving DecidableEq

/-- Outcome of the length-equalization stage (response.go:107-149, the code
before label `out`): `reached a b` is the state of the pair when control
reaches `out`. -/
inductive EqualizeOutcome where
  | reached (m1 m2 : FetchResponse)
  | failed (e : MergeError) (m1 m2 : FetchResponse)
  | panic
  | hang
deriving DecidableEq

/-- Iteration count of the Go loop `for ts := start; ts < stop; ts += step`;
callers rule out the non-terminating case (`step ≤ 0` with `start < stop`)
before using it. -/
def loopCount (start stop step : Int) : Nat :=
  if stop ≤ start then 0 else (((stop - start) + step - 1).tdiv step).toNat

/-- The resampling loop (response.go:140-144): for the k-th timestamp
`ts = m1start + k*m1step` on m1's grid read `m2.Values[(ts - m1start) / m2step]`;
`none` models the Go index-out-of-range panic. -/
def resampleValues (vals : List Sample) (m1start m1stop m1step m2step : Int) :
    Option (List Sample) :=
  (List.range (loopCount m1start m1stop m1step)).mapM (fun k =>
    let idx : Int := ((k : Int) * m1step).tdiv m2step
    if idx < 0 then none else vals[idx.toNat]?)

/-- Number of NaNs the pad loop (response.go:117-119) appends: the loop
condition `i < len(m1.Values)-len(m2.Values)` is re-evaluated before each
iteration while each iteration's append grows `m2.Values` by one, so for
an initial length difference d iteration i runs iff `i < d - i`, i.e.
`2*i < d` — `⌈d/2⌉` appends in total, leaving `m2` still short of `m1`
whenever `d ≥ 2`. -/
def padCount (l1 l2 : Nat) : Nat :=
  if l1 ≤ l2 then 0 else (l1 - l2 + 1) / 2

/-- The body of the length-equalization stage once the pair is ordered so
that `a` is the strictly longer metric (response.go:112-149): either
resample `b` onto `a`'s grid (finer `a` step, guarded by the stop-time
condition), right-pad `b` with `padCount` NaNs (equal starts — the pad is
only partial when the difference exceeds one, see `padCount`), or fail
with `ErrResponseLengthMismatch`.  A zero `b` step makes the Go guard
expression divide by zero (panic); a nonpositive `a` step with
`start < stop` makes the Go resample loop run forever (hang). -/
def equalizeOrdered (a b : FetchResponse) : EqualizeOutcome :=
  if a.stepTime < b.stepTime then
    -- interpolate = true
    if b.stepTime = 0 then .panic
    else if a.stopTime - a.stopTime.tmod b.stepTime ≠ b.stopTime then
      .failed .lengthMismatch a b
    else if a.stepTime ≤ 0 ∧ a.startTime < a.stopTime then .hang
    else
      match resampleValues b.values a.startTime a.stopTime a.stepTime b.stepTime with
      | none => .panic
      | some vs => .reached a
          { b with values := vs, stepTime := a.stepTime,
                   startTime := a.startTime, stopTime := a.stopTime }
  else
    if a.startTime = b.startTime then
      .reached a
        { b with values :=
            b.values ++ List.replicate (padCount a.values.length b.values.length) nan }
    else .failed .lengthMismatch a b

/-- Length equalization (response.go:107-149).  If the value lists have
equal length nothing happens; otherwise the pair is swapped (in place,
through both pointers) so the first is the longer, and the ordered body
runs. -/
def equalizeFetchResponses (m1 m2 : FetchResponse) : EqualizeOutcome :=
  if m1.values.length = m2.values.length then .reached m1 m2
  else if m1.values.length < m2.values.length then
    equalizeOrdered (swapFetchResponses m1 m2).1 (swapFetchResponses m1 m2).2
  else equalizeOrdered m1 m2

/-- The gap-fill loop (response.go:156-165): walk m1's values; a non-NaN
entry is kept (m2 is not read there); at a NaN entry the result is m2's
entry at the same index (the NaN is overwritten exactly when that entry is
non-NaN, so the result equals m2's entry either way); reading past the end
of m2 at a NaN position is the Go index-out-of-range panic (`none`). -/
def gapFill : List Sample → List Sample → Option (List Sample)
  | [], _ => some []
  | some q :: xs, [] => (gapFill xs []).map (fun r => some q :: r)
  | some q :: xs, _ :: ys => (gapFill xs ys).map (fun r => some q :: r)
  | none :: _, [] => none
  | none :: xs, y :: ys => (gapFill xs ys).map (fun r => y :: r)

/-- The code from label `out` to the end of `mergeFetchResponses`
(response.go:150-166): start-time check, then gap fill into m1. -/
def fillStage (m1 m2 : FetchResponse) : MergeOutcome :=
  if m1.startTime ≠ m2.startTime then .err .startTimeMismatch m1 m2
  else
    match gapFill m1.values m2.values with
    | none => .panic
    | some vs => .ok { m1 with values := vs } m2

/-- `mergeFetchResponses` (response.go:104-167): length equalization, then
the start-time check and gap fill. -/
def mergeFetchResponses (m1 m2 : FetchResponse) : MergeOutcome :=
  match equalizeFetchResponses m1 m2 with
  | .reached a b => fillStage a b
  | .failed e a b => .err e a b
  | .panic => .panic
  | .hang => .hang

/-- Convenience constructor for concrete test metrics. -/
def mkMetric (name : String) (start stop step : Int) (vals : List Sample) :
    FetchResponse :=
  { name := name, startTime := start, stopTime := stop, stepTime := step,
    consolidationFunc := "avg", xFilesFactor := 0,
    values := vals, appliedFunctions := [] }

/-- Shorthand for a non-NaN sample. -/
def v (q : ℚ) : Sample := some q

/-- Final state of the merged-into (first) metric, when the merge did not
panic or hang. -/
def MergeOutcome.first : MergeOutcome → Option FetchResponse
  | .ok a _ => some a
  | .err _ a _ => some a
  | .panic => none
  | .hang => none

/-- Values of the merged-into metric, when available. -/
def MergeOutcome.firstValues (o : MergeOutcome) : Option (List Sample) :=
  o.first.map FetchResponse.values

/-- Repo test `simple 1` (the test file's TestMergeValues): a finer 10-point
first series absorbs a coarser 5-point second series unchanged. -/
theorem mergeValues_simple1 :
    (mergeFetchResponses
      (mkMetric "foo" 60 660 60 [v 1, v 2, v 3, v 4, v 5, v 6, v 7, v 8, v 9, v 0])
      (mkMetric "foo" 0 600 120 [v 1, v 3, v 5, v 7, v 9])).firstValues =
      some [v 1, v 2, v 3, v 4, v 5, v 6, v 7, v 8, v 9, v 0] := by
  decide

/-- Repo test `simple 2`: the arguments of `simple 1` exchanged; after the
swap the first metric carries the finer series. -/
theorem mergeValues_simple2 :
    (mergeFetchResponses
      (mkMetric "foo" 0 600 120 [v 1, v 3, v 5, v 7, v 9])
      (mkMetric "foo" 60 660 60 [v 1, v 2, v 3, v 4, v 5, v 6, v 7, v 8, v 9, v 0])).first =
      some (mkMetric "foo" 60 660 60
        [v 1, v 2, v 3, v 4, v 5, v 6, v 7, v 8, v 9, v 0]) := by
  decide

/-- Repo test `fill the gaps simple`: equal-length, equal-step series;
NaNs of the first are filled from the second where the second is non-NaN. -/
theorem mergeValues_fillGapsSimple :
    (mergeFetchResponses
      (mkMetric "foo" 60 1260 60
        [v 1, v 2, v 3, v 4, nan, v 6, v 7, v 8, v 9, nan,
         v 11, v 12, v 13, v 14, v 15, v 16, nan, nan, nan, v 20])
      (mkMetric "foo" 60 1260 60
        [v 1, v 2, nan, nan, v 5, v 6, v 7, v 8, v 9, nan,
         v 11, v 12, nan, v 14, v 15, v 16, v 17, v 18, nan, v 20])).firstValues =
      some [v 1, v 2, v 3, v 4, v 5, v 6, v 7, v 8, v 9, nan,
            v 11, v 12, v 13, v 14, v 15, v 16, v 17, v 18, nan, v 20] := by
  decide

/-- Repo test `fill the gaps 1`: a coarse 10-point first series is swapped
behind a fine 20-point second series, resampled onto its grid and used to
fill its gaps. -/
theorem mergeValues_fillGaps1 :
    (mergeFetchResponses
      (mkMetric "foo" 0 1200 120
        [v 1, nan, v 5, v 7, v 9, v 11, v 13, v 15, v 17, v 19])
      (mkMetric "foo" 60 1260 60
        [v 1, v 2, nan, nan, v 5, v 6, v 7, v 8, v 9, nan,
         v 11, v 12, nan, v 14, v 15, v 16, v 17, v 18, nan, v 20])).firstValues =
      some [v 1, v 2, nan, nan, v 5, v 6, v 7, v 8, v 9, v 9,
            v 11, v 12, v 13, v 14, v 15, v 16, v 17, v 18, v 19, v 20] := by
  decide

/-- Repo test `fill end of metric`: a 19-point first series is swapped
behind a 20-point second series and right-padded with NaN before the fill. -/
theorem mergeValues_fillEnd :
    (mergeFetchResponses
      (mkMetric "foo" 60 1200 60
        [v 1, v 2, v 3, v 4, nan, v 6, v 7, v 8, v 9, nan,
         v 11, v 12, v 13, v 14, v 15, v 16, nan, nan, nan])
      (mkMetric "foo" 60 1260 60
        [v 1, v 2, nan, nan, v 5, v 6, v 7, v 8, v 9, nan,
         v 11, v 12, nan, v 14, v 15, v 16, v 17, v 18, nan, v 20])).firstValues =
      some [v 1, v 2, v 3, v 4, v 5, v 6, v 7, v 8, v 9, nan,
            v 11, v 12, v 13, v 14, v 15, v 16, v 17, v 18, nan, v 20] := by
  decide

/-- Partial-pad panic: with a length difference of 2 the pad loop appends
only one NaN (its re-evaluated condition stops at `2*i < d`), so the
second metric stays one short and the gap fill's read at the first
metric's trailing NaN position is out of range — the program panics. -/
theorem mergeValues_partial_pad_panic :
    mergeFetchResponses
      (mkMetric "foo" 0 180 60 [v 1, v 2, nan])
      (mkMetric "foo" 0 120 60 [v 5]) = .panic := by
  decide

/-- Modelled from the spec: the `Stats` record (data model §3) — counters
plus the `servers` / `failed_servers` lists.  Its merge operation, called
by both response mergers, is declared in this repository but its body is
outside the reviewed sources; the spec says counters are summed and lists
concatenated. -/
structure Stats where
  renderErrors : Nat
  findErrors : Nat
  memoryUsage : Int
  servers : List String
  failedServers : List String
deriving DecidableEq

/-- Modelled from the spec: `Stats.Merge` — sum counters, concatenate the
server lists. -/
def Stats.merge (a b : Stats) : Stats :=
  { renderErrors := a.renderErrors + b.renderErrors,
    findErrors := a.findErrors + b.findErrors,
    memoryUsage := a.memoryUsage + b.memoryUsage,
    servers := a.servers ++ b.servers,
    failedServers := a.failedServers ++ b.failedServers }

/-- The all-zero stats record. -/
def Stats.zero : Stats := ⟨0, 0, 0, [], []⟩

/-- Embedding of `ServerFetchResponse`: the metric list of its
`MultiFetchResponse`, its stats and its error (`none` = no error). -/
structure ServerFetchResponse where
  metrics : List FetchResponse
  stats : Stats
  err : Option String
deriving DecidableEq

/-- The name-to-index map built by `for i := range ms { m[ms[i].Name] = i }`:
as in a Go map, a later entry for the same name overwrites an earlier one,
so the map holds the last index bearing the name. -/
def lastIdxByName (ms : List FetchResponse) (n : String) : Option Nat :=
  (ms.enum.filterMap (fun p => if p.2.name = n then some p.1 else none)).getLast?

/-- Outcome of the metric loop of `ServerFetchResponse.Merge`. -/
inductive FetchLoopOutcome where
  | ok (f s : List FetchResponse)
  | panic
  | hang
deriving DecidableEq

/-- The metric loop of `ServerFetchResponse.Merge` (response.go:181-191),
with `i` ranging over the indices of second's metric list and `k` the
remaining iteration count.  The source indexes
`first.Response.Metrics[i]` (though `i` ranges over SECOND's list) and
`second.Response.Metrics[j]` (though `j` is a position in FIRST's list);
these crossed indices are reproduced faithfully, and `panic` models the
out-of-range access they can cause.  Both lists are threaded through the
loop because `mergeFetchResponses` mutates both of its arguments through
pointers — also on its error path, where the loop merely continues — and
because appends grow first's list as the loop runs. -/
def serverFetchMergeLoop (lookup : String → Option Nat) :
    Nat → Nat → List FetchResponse → List FetchResponse → FetchLoopOutcome
  | 0, _, f, s => .ok f s
  | k + 1, i, f, s =>
    match s[i]? with
    | none => .panic
    | some m =>
      match lookup m.name with
      | some j =>
        match f[i]?, s[j]? with
        | some fi, some sj =>
          match mergeFetchResponses fi sj with
          | .ok a b => serverFetchMergeLoop lookup k (i + 1) (f.set i a) (s.set j b)
          | .err _ a b => serverFetchMergeLoop lookup k (i + 1) (f.set i a) (s.set j b)
          | .panic => .panic
          | .hang => .hang
        | _, _ => .panic
      | none => serverFetchMergeLoop lookup k (i + 1) (f ++ [m]) s

/-- Outcome of `ServerFetchResponse.Merge`; both responses are mutated in
place, so `ok` carries the final state of both. -/
inductive RespMergeOutcome where
  | ok (first second : ServerFetchResponse)
  | panic
  | hang
deriving DecidableEq

/-- `ServerFetchResponse.Merge` (response.go:169-198): merge stats, bail
out if second carries an error, build the name map over first's metrics,
run the metric loop, then clear first's error if second succeeded. -/
def serverFetchResponseMerge (first second : ServerFetchResponse) : RespMergeOutcome :=
  let first1 : ServerFetchResponse :=
    { first with stats := first.stats.merge second.stats }
  if second.err.isSome then .ok first1 second
  else
    match serverFetchMergeLoop (lastIdxByName first1.metrics)
        second.metrics.length 0 first1.metrics second.metrics with
    | .ok f s =>
        let f1 : ServerFetchResponse := { first1 with metrics := f }
        let f2 := if f1.err.isSome ∧ second.err = none
          then { f1 with err := none } else f1
        .ok f2 { second with metrics := s }
    | .panic => .panic
    | .hang => .hang

/-- Errors a single `doRequest` attempt can produce, classified the way
`DoQuery` observes them: the `ErrNotFound` sentinel (compared with `==`),
a cancellation/deadline error from the context, and anything else (URL
parse, transport, non-200 status, body read). -/
inductive QErr where
  | notFound
  | cancelled
  | other (tag : String)
deriving DecidableEq

/-- The `ServerResponse` envelope returned by a successful attempt. -/
structure SResp where
  server : String
  response : String
deriving DecidableEq

/-- Result of a whole `DoQuery` run.  `nilnil` is the Go corner where the
loop body never runs (`maxTries ≤ 0`) and `return nil, err` returns the
zero-value error, i.e. `(nil, nil)`. -/
inductive QueryResult where
  | ok (r : SResp)
  | err (e : QErr)
  | nilnil
deriving DecidableEq

/-- The retry loop of `HttpQuery.DoQuery` (part_000:132-144); `attempt t`
is the outcome of the t-th call to `doRequest` (each such call performs
exactly one `pickServer` as its first action), `k` the remaining tries,
`t` the index of the next try, and `last` the last error seen.  Returns
the result together with the number of attempts (= server picks)
performed.  An `ErrNotFound` attempt returns at once; every other error
just continues the loop. -/
def doQueryLoop (attempt : Nat → Except QErr SResp) :
    Nat → Nat → Option QErr → QueryResult × Nat
  | 0, t, last =>
    (match last with
     | none => .nilnil
     | some e => .err e, t)
  | k + 1, t, _ =>
    match attempt t with
    | .ok r => (.ok r, t + 1)
    | .error e =>
      if e = .notFound then (.err .notFound, t + 1)
      else doQueryLoop attempt k (t + 1) (some e)

/-- `HttpQuery.DoQuery` (part_000:125-145): the try budget is the
configured `maxTries` raised to the server count when that is larger, and
the loop runs with that budget. -/
def doQuery (maxTriesCfg : Int) (nServers : Nat) (attempt : Nat → Except QErr SResp) :
    QueryResult × Nat :=
  doQueryLoop attempt
    (if (nServers : Int) > maxTriesCfg then (nServers : Int) else maxTriesCfg).toNat 0 none

/-- A limiter event as seen by the limiter, tagged with the key string the
call passed. -/
inductive LimEvent where
  | enter (key : String)
  | leave (key : String)
deriving DecidableEq

/-- Environment outcome of the transport round-trip inside one attempt. -/
inductive TransportRes where
  | ioError
  | status (code : Nat) (bodyOk : Bool)
deriving DecidableEq

/-- One `HttpQuery.doRequest` attempt (part_000:63-123), instrumented with
the limiter events it performs, parametrized by the environment: whether
URL parsing and request construction succeed, whether the limiter slot is
acquired before cancellation, and the transport outcome.  The source
acquires with `limiter.Enter(ctx, c.groupName)` and defers
`limiter.Leave(ctx, server)` — the key strings passed are recorded
verbatim.  Returns the event list and the attempt's result. -/
def doRequestEvents (groupName server : String) (body : String)
    (parseOk reqOk enterOk : Bool) (tr : TransportRes) :
    List LimEvent × Except QErr SResp :=
  if ¬parseOk then ([], .error (.other "url parse"))
  else if ¬reqOk then ([], .error (.other "new request"))
  else if ¬enterOk then ([], .error .cancelled)
  else
    -- slot held; Leave(ctx, server) is deferred, so it closes every path below
    match tr with
    | .ioError => ([.enter groupName, .leave server], .error (.other "transport"))
    | .status code bodyOk =>
      if code = 404 then ([.enter groupName, .leave server], .error .notFound)
      else if code ≠ 200 then
        ([.enter groupName, .leave server], .error (.other "status"))
      else if ¬bodyOk then
        ([.enter groupName, .leave server], .error (.other "read body"))
      else ([.enter groupName, .leave server], .ok ⟨server, body⟩)

/-- Number of events among `evs` acquiring key `k`. -/
def entersFor (k : String) (evs : List LimEvent) : Nat :=
  (evs.filter (fun e => e = .enter k)).length

/-- Number of events among `evs` releasing key `k`. -/
def leavesFor (k : String) (evs : List LimEvent) : Nat :=
  (evs.filter (fun e => e = .leave k)).length

/-- Embedding of `protov3.GlobMatch`: a match path and its leaf flag. -/
structure GlobMatch where
  path : String
  isLeaf : Bool
deriving DecidableEq

/-- One metric of a `MultiGlobResponse`: a name and its matches. -/
structure GlobMetric where
  name : String
  matchList : List GlobMatch
deriving DecidableEq

/-- Embedding of `ServerFindResponse`: the metric list of its
`MultiGlobResponse`, its stats and its error. -/
structure ServerFindResponse where
  metrics : List GlobMetric
  stats : Stats
  err : Option String
deriving DecidableEq

/-- The `seenMetrics` map of the find merge (response.go:54-61): name to
last index bearing it, as in a Go map filled by an index loop. -/
def lastGlobIdxByName (ms : List GlobMetric) (n : String) : Option Nat :=
  (ms.enum.filterMap (fun p => if p.2.name = n then some p.1 else none)).getLast?

/-- The initial `seenMatches` key set (response.go:56-61): a key
`name ++ "." ++ path` for every match of every metric of first. -/
def seenKeys (ms : List GlobMetric) : List String :=
  ms.flatMap (fun m => m.matchList.map (fun mm => m.name ++ "." ++ mm.path))

/-- Inner match loop of `ServerFindResponse.Merge` (response.go:70-76):
for each match of the second metric, build the key from the NAME STORED AT
POSITION i of the (current) first list and the match's path; append the
match to that metric and the key to the seen set when the key is new.
`i` always indexes the original part of the list (it comes from the map
over first's original metrics), so the out-of-range guard is unreachable
and mirrors Go's in-range access. -/
def findMatchLoop (i : Nat) : List GlobMatch → List GlobMetric → List String →
    List GlobMetric × List String
  | [], ms, seen => (ms, seen)
  | mm :: rest, ms, seen =>
    match ms[i]? with
    | none => findMatchLoop i rest ms seen
    | some mi =>
      let key := mi.name ++ "." ++ mm.path
      if key ∈ seen then findMatchLoop i rest ms seen
      else findMatchLoop i rest
        (ms.set i { mi with matchList := mi.matchList ++ [mm] }) (seen ++ [key])

/-- Outer metric loop of `ServerFindResponse.Merge` (response.go:63-77):
a metric of second whose name is not in the index is appended whole;
otherwise its matches run through the inner loop. -/
def findMetricLoop (lookup : String → Option Nat) :
    List GlobMetric → List GlobMetric → List String → List GlobMetric
  | [], ms, _ => ms
  | m :: rest, ms, seen =>
    match lookup m.name with
    | none => findMetricLoop lookup rest (ms ++ [m]) seen
    | some i =>
      findMetricLoop lookup rest (findMatchLoop i m.matchList ms seen).1
        (findMatchLoop i m.matchList ms seen).2

/-- `ServerFindResponse.Merge` (response.go:48-84): merge stats, return
second's error if set, otherwise run the metric loop and clear first's
error if second succeeded.  Returns the final first response and the
function's return value. -/
def serverFindResponseMerge (first second : ServerFindResponse) :
    ServerFindResponse × Option String :=
  let first1 : ServerFindResponse :=
    { first with stats := first.stats.merge second.stats }
  match second.err with
  | some e => (first1, some e)
  | none =>
    let ms := findMetricLoop (lastGlobIdxByName first1.metrics) second.metrics
      first1.metrics (seenKeys first1.metrics)
    let f1 : ServerFindResponse := { first1 with metrics := ms }
    let f2 := if f1.err.isSome ∧ second.err = none
      then { f1 with err := none } else f1
    (f2, none)

/-- The (metric name, match path) pairs of a metric list, in order. -/
def pairsOf (ms : List GlobMetric) : List (String × String) :=
  ms.flatMap (fun m => m.matchList.map (fun mm => (m.name, mm.path)))

/-- The names of a metric list, in order. -/
def namesOf (ms : List GlobMetric) : List String :=
  ms.map GlobMetric.name

/-- Payload stand-in for `protov3.MultiMetricsInfoResponse` (its contents
are only carried, never inspected, by the group client). -/
structure MultiMetricsInfoResponse where
  payload : String
deriving DecidableEq

/-- `protov3.ZipperInfoResponse`: a map group-name → info response,
modelled as an association list. -/
structure ZipperInfoResponse where
  info : List (String × MultiMetricsInfoResponse)
deriving DecidableEq

/-- The generated protobuf `Size()` on a possibly-nil message pointer: the
generated body begins with a nil-receiver check returning 0, so the call
itself does not panic on nil. -/
def protoSizeOpt {α : Type} (sz : α → Int) : Option α → Int
  | none => 0
  | some x => sz x

/-- Outcome of one gRPC group-client operation: either a returned triple
(response pointer, stats, error) or a runtime panic. -/
inductive GrpcCallOutcome (α : Type) where
  | ret (r : Option α) (stats : Stats) (err : Option String)
  | panic
deriving DecidableEq

/-- The stats fields every gRPC operation computes (grpc_group.go:102-114
and analogues): start from `Servers = [groupName]`; on error increment
`RenderErrors`, move `Servers` into `FailedServers`; then record the
response's size as memory usage. -/
def grpcStats {α : Type} (groupName : String) (sz : α → Int)
    (res : Option α) (err : Option String) : Stats :=
  let stats0 : Stats := { Stats.zero with servers := [groupName] }
  let stats1 := if err.isSome then
      { stats0 with renderErrors := stats0.renderErrors + 1,
                    failedServers := stats0.servers, servers := [] }
    else stats0
  { stats1 with memoryUsage := protoSizeOpt sz res }

/-- `ClientGRPCGroup.Fetch` (grpc_group.go:101-117) given the RPC outcome
`(res, err)`: computes stats and returns the triple unchanged — the
response pointer is never dereferenced, so even a nil response with an
error returns normally. -/
def grpcFetch (groupName : String) (sz : List FetchResponse → Int)
    (res : Option (List FetchResponse)) (err : Option String) :
    GrpcCallOutcome (List FetchResponse) :=
  .ret res (grpcStats groupName sz res err) err

/-- `ClientGRPCGroup.Info` (grpc_group.go:136-158) given the RPC outcome
`(res, err)`: computes the same stats, then builds
`ZipperInfoResponse{Info: {groupName: *res}}` — dereferencing `res`
unconditionally, which is a nil-pointer panic whenever the RPC failed and
returned no reply. -/
def grpcInfo (groupName : String) (sz : MultiMetricsInfoResponse → Int)
    (res : Option MultiMetricsInfoResponse) (err : Option String) :
    GrpcCallOutcome ZipperInfoResponse :=
  let stats := grpcStats groupName sz res err
  match res with
  | none => .panic
  | some r => .ret (some ⟨[(groupName, r)]⟩) stats err

/-! ## Claims -/

/-- C1.  Response-level fetch merge, at the failing input of the crossed
indices: first holds metrics named "a", "b" (in that order) and second
holds one metric named "b".  The claim expects second's "b" to pair-merge
into first's "b"; the source instead calls
`mergeFetchResponses(&first.Response.Metrics[i], &second.Response.Metrics[j])`
with `i` the position in SECOND (0, first's "a" metric) and `j` the
position of the name in FIRST (1, out of range of second's single-element
list), so the access panics. -/
theorem serverFetchMerge_crossed_indices_panic :
    serverFetchResponseMerge
      ⟨[mkMetric "a" 0 60 60 [v 1], mkMetric "b" 0 60 60 [nan]], Stats.zero, none⟩
      ⟨[mkMetric "b" 0 60 60 [v 2]], Stats.zero, none⟩ = .panic := by
  decide

/-- C9.  The gRPC group client's `Info`, in the error branch where the RPC
failed and returned no reply, dereferences the absent reply (`*res`) while
building its `ZipperInfoResponse` and panics; `Fetch` on the same outcome
returns the error normally, since it never dereferences the reply. -/
theorem grpcInfo_error_branch_panics :
    grpcInfo "group1" (fun _ => 0) none (some "rpc failed") = .panic ∧
    grpcFetch "group1" (fun _ => 0) none (some "rpc failed") =
      .ret none ⟨1, 0, 0, [], ["group1"]⟩ (some "rpc failed") := by
  constructor
  · rfl
  · rfl

/-- C7.  Limiter discipline of one `doRequest` attempt: on every attempt
that acquires a slot (URL parse, request construction and the acquire all
succeed), exactly one acquire and one release happen regardless of the
transport outcome — but the acquire is keyed by the GROUP NAME while the
deferred release is keyed by the PICKED SERVER
(`limiter.Enter(ctx, c.groupName)` vs `defer c.limiter.Leave(ctx, server)`),
so when the two strings differ the group's acquires and releases do not
balance: concretely, key "group1" sees one acquire and zero releases. -/
theorem doRequest_release_key_mismatch :
    (∀ (g s body : String) (tr : TransportRes),
      (doRequestEvents g s body true true true tr).1 = [.enter g, .leave s]) ∧
    entersFor "group1"
      (doRequestEvents "group1" "http://s1" "payload" true true true
        (.status 200 true)).1 = 1 ∧
    leavesFor "group1"
      (doRequestEvents "group1" "http://s1" "payload" true true true
        (.status 200 true)).1 = 0 := by
  refine ⟨fun g s body tr => ?_, by decide, by decide⟩
  cases tr with
  | ioError => rfl
  | status code bodyOk =>
    by_cases h404 : code = 404
    · simp [doRequestEvents, h404]
    · by_cases h200 : code = 200
      · cases bodyOk <;> simp [doRequestEvents, h404, h200]
      · simp [doRequestEvents, h404, h200]

/-- C10.  The fetch pair-merge mutates the memory behind its second
argument.  Concretely: merging a coarse 5-point series named "A" with a
fine 10-point series named "B" swaps the two structs (the caller's second
now bears the name "A"), resamples the second's values in place and
overwrites its step, start and stop times with the merged (first) metric's;
merging a 3-point series with a 2-point series of equal step right-pads
the second's values with NaN in place (one NaN — the full difference here,
since the Go pad loop appends `⌈d/2⌉` NaNs).  In both runs the caller's
second struct no longer holds its original series. -/
theorem fetch_pair_merge_mutates_second :
    (mergeFetchResponses
        (mkMetric "A" 0 600 120 [v 1, v 3, v 5, v 7, v 9])
        (mkMetric "B" 60 660 60 [v 1, v 2, v 3, v 4, v 5, v 6, v 7, v 8, v 9, v 0]) =
      .ok (mkMetric "B" 60 660 60 [v 1, v 2, v 3, v 4, v 5, v 6, v 7, v 8, v 9, v 0])
          (mkMetric "A" 60 660 60 [v 1, v 1, v 3, v 3, v 5, v 5, v 7, v 7, v 9, v 9]) ∧
      mkMetric "A" 60 660 60 [v 1, v 1, v 3, v 3, v 5, v 5, v 7, v 7, v 9, v 9] ≠
        mkMetric "B" 60 660 60 [v 1, v 2, v 3, v 4, v 5, v 6, v 7, v 8, v 9, v 0]) ∧
    (mergeFetchResponses
        (mkMetric "C" 0 180 60 [v 1, v 2, nan])
        (mkMetric "D" 0 120 60 [v 5, v 6]) =
      .ok (mkMetric "C" 0 180 60 [v 1, v 2, nan])
          (mkMetric "D" 0 120 60 [v 5, v 6, nan]) ∧
      mkMetric "D" 0 120 60 [v 5, v 6, nan] ≠ mkMetric "D" 0 120 60 [v 5, v 6]) := by
  exact ⟨⟨by decide, by decide⟩, ⟨by decide, by decide⟩⟩

/-- C2 counterexample.  With A the 2-point coarse first argument and B the
4-point fine second argument, the pair merges without error, A's value at
index 0 is the non-NaN 100, yet the merged value at index 0 is 1: the
equalization swapped the pair, so it is NOT generally A's non-NaN values
that survive the merge. -/
theorem fetch_gap_fill_first_arg_counterexample :
    mergeFetchResponses
        (mkMetric "A" 0 240 120 [v 100, v 50])
        (mkMetric "B" 0 240 60 [v 1, v 2, v 3, v 4]) =
      .ok (mkMetric "B" 0 240 60 [v 1, v 2, v 3, v 4])
          (mkMetric "A" 0 240 60 [v 100, v 100, v 50, v 50]) ∧
    (mkMetric "A" 0 240 120 [v 100, v 50]).values[0]? = some (v 100) ∧
    (mkMetric "B" 0 240 60 [v 1, v 2, v 3, v 4]).values[0]? = some (v 1) ∧
    v 1 ≠ v 100 := by
  exact ⟨by decide, by decide, by decide, by decide⟩

/-- C6 counterexample.  A run whose first attempt fails with a
cancellation error: `DoQuery` does not propagate it immediately — it
performs a second attempt (the driver only short-circuits on the NotFound
sentinel) and here even returns that attempt's success. -/
theorem doQuery_cancel_retried_counterexample :
    (fun t => if t = 0 then (.error .cancelled : Except QErr SResp)
              else .ok ⟨"s2", "body"⟩) 0 = .error .cancelled ∧
    doQuery 2 1 (fun t => if t = 0 then (.error .cancelled : Except QErr SResp)
              else .ok ⟨"s2", "body"⟩) = (.ok ⟨"s2", "body"⟩, 2) := by
  exact ⟨rfl, by decide⟩

/-- C8 counterexample.  Both responses are error-free, have unique metric
names and unique paths per metric, yet the pair ("a.b", "c") is in the
merge of B into A but absent from the merge of A into B: the key encoding
`name ++ "." ++ path` conflates first's pair ("a", "b.c") with second's
pair ("a.b", "c"), so the latter is wrongly skipped — the two merge orders
do not yield the same set of (metric name, match path) pairs. -/
theorem find_merge_union_counterexample :
    (namesOf ([⟨"a", [⟨"b.c", true⟩]⟩, ⟨"a.b", []⟩] : List GlobMetric)).Nodup ∧
    (namesOf ([⟨"a.b", [⟨"c", true⟩]⟩] : List GlobMetric)).Nodup ∧
    (∀ m ∈ ([⟨"a", [⟨"b.c", true⟩]⟩, ⟨"a.b", []⟩] : List GlobMetric),
      (m.matchList.map GlobMatch.path).Nodup) ∧
    (∀ m ∈ ([⟨"a.b", [⟨"c", true⟩]⟩] : List GlobMetric),
      (m.matchList.map GlobMatch.path).Nodup) ∧
    ("a.b", "c") ∈ pairsOf (serverFindResponseMerge
        ⟨[⟨"a.b", [⟨"c", true⟩]⟩], Stats.zero, none⟩
        ⟨[⟨"a", [⟨"b.c", true⟩]⟩, ⟨"a.b", []⟩], Stats.zero, none⟩).1.metrics ∧
    ("a.b", "c") ∉ pairsOf (serverFindResponseMerge
        ⟨[⟨"a", [⟨"b.c", true⟩]⟩, ⟨"a.b", []⟩], Stats.zero, none⟩
        ⟨[⟨"a.b", [⟨"c", true⟩]⟩], Stats.zero, none⟩).1.metrics := by
  refine ⟨by decide, by decide, by decide, by decide, by decide, by decide⟩

/-! ## Retry-driver lemmas -/

/-- The effective try budget of `DoQuery` is `max(configured, number of servers)`. -/
theorem doQuery_budget (c : Int) (n : Nat) :
    (if (n : Int) > c then (n : Int) else c) = max c n := by
  split_ifs <;> omega

/-- The loop performs at most its budget of attempts. -/
theorem doQueryLoop_count_le (attempt : Nat → Except QErr SResp) :
    ∀ (b t : Nat) (last : Option QErr), (doQueryLoop attempt b t last).2 ≤ t + b := by
  intro b
  induction b with
  | zero => intro t last; simp [doQueryLoop]
  | succ n ih =>
    intro t last
    rcases hatt : attempt t with e | r
    · by_cases hnf : e = .notFound
      · simp [doQueryLoop, hatt, hnf]
      · have := ih (t + 1) (some e)
        simp only [doQueryLoop, hatt]
        rw [if_neg hnf]
        omega
    · simp [doQueryLoop, hatt]

/-- If the k-th attempt is the NotFound sentinel and every earlier attempt
(from the loop's starting index on) fails with a different error, the loop
stops at attempt k, returning NotFound after exactly k+1 attempts. -/
theorem doQueryLoop_notFound (attempt : Nat → Except QErr SResp) (k : Nat)
    (hnf : attempt k = .error .notFound) :
    ∀ (b t : Nat) (last : Option QErr), t ≤ k → k < t + b →
    (∀ j, t ≤ j → j < k → ∃ e : QErr, attempt j = .error e ∧ e ≠ .notFound) →
    doQueryLoop attempt b t last = (.err .notFound, k + 1) := by
  intro b
  induction b with
  | zero => intro t last h1 h2 _; omega
  | succ n ih =>
    intro t last h1 h2 hb
    by_cases htk : t = k
    · subst htk; simp [doQueryLoop, hnf]
    · have ht : t < k := lt_of_le_of_ne h1 htk
      obtain ⟨e, he, hene⟩ := hb t le_rfl ht
      simp only [doQueryLoop, he]
      rw [if_neg hene]
      exact ih (t + 1) (some e) ht (by omega) (fun j hj1 hj2 => hb j (by omega) hj2)

/-- If every attempt in the budget fails with a retryable (non-NotFound)
error, the loop exhausts the budget and returns the error of its last
attempt. -/
theorem doQueryLoop_all_fail (attempt : Nat → Except QErr SResp) :
    ∀ (b t : Nat) (last : Option QErr) (e : QErr), 0 < b →
    (∀ j, t ≤ j → j < t + b → ∃ e2 : QErr, attempt j = .error e2 ∧ e2 ≠ .notFound) →
    attempt (t + b - 1) = .error e →
    doQueryLoop attempt b t last = (.err e, t + b) := by
  intro b
  induction b with
  | zero => intro t last e h; omega
  | succ n ih =>
    intro t last e _ hall hlast
    obtain ⟨e2, he2, hne2⟩ := hall t le_rfl (by omega)
    rcases Nat.eq_zero_or_pos n with hn | hn
    · subst hn
      have : t + 1 - 1 = t := by omega
      rw [this] at hlast
      rw [hlast] at he2
      injection he2 with he2
      subst he2
      simp only [doQueryLoop, hlast]
      rw [if_neg hne2]
    · simp only [doQueryLoop, he2]
      rw [if_neg hne2]
      have hres := ih (t + 1) (some e2) e hn
        (fun j hj1 hj2 => hall j (by omega) (by omega))
        (by have : t + 1 + n - 1 = t + (n + 1) - 1 := by omega
            rw [this]; exact hlast)
      rw [hres]
      congr 1
      omega

/-- C4.  Not-found short-circuits the retry driver: in any run in which
attempt k (within the budget) returns the NotFound sentinel and every
earlier attempt failed with a retryable error, `DoQuery` returns NotFound
having performed exactly k+1 attempts — no further attempts, hence no
further server picks (each attempt performs its single pick first). -/
theorem doQuery_notFound_short_circuit (maxTriesCfg : Int) (nServers : Nat)
    (attempt : Nat → Except QErr SResp) (k : Nat)
    (hk : (k : Int) < max maxTriesCfg (nServers : Int))
    (hnf : attempt k = .error .notFound)
    (hbefore : ∀ j < k, ∃ e : QErr, attempt j = .error e ∧ e ≠ .notFound) :
    doQuery maxTriesCfg nServers attempt = (.err .notFound, k + 1) := by
  unfold doQuery
  rw [doQuery_budget]
  exact doQueryLoop_notFound attempt k hnf (max maxTriesCfg (nServers : Int)).toNat 0 none
    (Nat.zero_le k) (by omega) (fun j _ hj => hbefore j hj)

/-- C4 witness: budget max(3, 1) = 3; attempt 0 fails retryably, attempt 1
is NotFound; the driver stops after 2 attempts with NotFound. -/
theorem doQuery_notFound_short_circuit_witness :
    doQuery 3 1 (fun t => if t = 0 then (.error (.other "boom") : Except QErr SResp)
      else .error .notFound) = (.err .notFound, 2) := by
  have h := doQuery_notFound_short_circuit 3 1
    (fun t => if t = 0 then (.error (.other "boom") : Except QErr SResp)
      else .error .notFound) 1
    (by decide) rfl
    (fun j hj => by interval_cases j; exact ⟨.other "boom", rfl, by decide⟩)
  exact h

/-- C5.  The retry driver performs at most `max(configured max_tries,
number of servers)` attempts; and when that budget is positive and every
attempt in it fails with a retryable error, it returns the error observed
on the last attempt, having used the whole budget. -/
theorem doQuery_attempt_bound_and_last_error (maxTriesCfg : Int) (nServers : Nat)
    (attempt : Nat → Except QErr SResp) :
    (doQuery maxTriesCfg nServers attempt).2 ≤ (max maxTriesCfg (nServers : Int)).toNat ∧
    ∀ (e : QErr), 0 < (max maxTriesCfg (nServers : Int)).toNat →
      (∀ j < (max maxTriesCfg (nServers : Int)).toNat,
        ∃ e2 : QErr, attempt j = .error e2 ∧ e2 ≠ .notFound) →
      attempt ((max maxTriesCfg (nServers : Int)).toNat - 1) = .error e →
      doQuery maxTriesCfg nServers attempt =
        (.err e, (max maxTriesCfg (nServers : Int)).toNat) := by
  constructor
  · unfold doQuery
    rw [doQuery_budget]
    have := doQueryLoop_count_le attempt (max maxTriesCfg (nServers : Int)).toNat 0 none
    omega
  · intro e hpos hall hlast
    unfold doQuery
    rw [doQuery_budget]
    have h := doQueryLoop_all_fail attempt (max maxTriesCfg (nServers : Int)).toNat 0 none e
      hpos (fun j _ hj2 => hall j (by omega)) (by simpa using hlast)
    simpa using h

/-- C5 witness: budget max(2, 1) = 2; both attempts fail retryably with
distinguishable errors; the driver reports the second attempt's error
after exactly 2 attempts. -/
theorem doQuery_attempt_bound_and_last_error_witness :
    (doQuery 2 1 (fun t => if t = 0 then (.error (.other "first") : Except QErr SResp)
      else .error (.other "second"))).2 ≤ 2 ∧
    doQuery 2 1 (fun t => if t = 0 then (.error (.other "first") : Except QErr SResp)
      else .error (.other "second")) = (.err (.other "second"), 2) := by
  have hb : (max (2 : Int) ((1 : Nat) : Int)).toNat = 2 := by decide
  have h := doQuery_attempt_bound_and_last_error 2 1
    (fun t => if t = 0 then (.error (.other "first") : Except QErr SResp)
      else .error (.other "second"))
  constructor
  · have h1 := h.1
    rw [hb] at h1
    exact h1
  · have h2 := h.2 (.other "second") (by decide)
      (fun j hj => by
        rw [hb] at hj
        interval_cases j
        · exact ⟨.other "first", rfl, by decide⟩
        · exact ⟨.other "second", rfl, by decide⟩)
      (by rw [hb]; rfl)
    rw [hb] at h2
    exact h2

/-- C6 (amended).  A cancellation error receives no special treatment from
the retry driver: it is retried like any other non-NotFound error, so a
run in which every attempt in the budget fails with the cancellation error
performs the whole budget of attempts and only then surfaces the
cancellation error as the last observed error. -/
theorem doQuery_cancel_exhausts_budget (maxTriesCfg : Int) (nServers : Nat)
    (attempt : Nat → Except QErr SResp)
    (hpos : 0 < (max maxTriesCfg (nServers : Int)).toNat)
    (hall : ∀ j < (max maxTriesCfg (nServers : Int)).toNat,
      attempt j = .error .cancelled) :
    doQuery maxTriesCfg nServers attempt =
      (.err .cancelled, (max maxTriesCfg (nServers : Int)).toNat) := by
  unfold doQuery
  rw [doQuery_budget]
  have h := doQueryLoop_all_fail attempt (max maxTriesCfg (nServers : Int)).toNat 0 none
    .cancelled hpos
    (fun j _ hj2 => ⟨.cancelled, hall j (by omega), by decide⟩)
    (by simpa using hall _ (by omega))
  simpa using h

/-- C6 amended-theorem witness: budget max(2, 2) = 2; two cancelled
attempts; the driver returns cancelled after both. -/
theorem doQuery_cancel_exhausts_budget_witness :
    doQuery 2 2 (fun _ => .error .cancelled) = (.err .cancelled, 2) := by
  have hb : (max (2 : Int) ((2 : Nat) : Int)).toNat = 2 := by decide
  have h := doQuery_cancel_exhausts_budget 2 2 (fun _ => .error .cancelled)
    (by decide) (fun j _ => rfl)
  rw [hb] at h
  exact h

/-! ## Fetch pair-merge lemmas -/

/-- The ordered equalization never replaces its first (longer) metric. -/
theorem equalizeOrdered_reached_fst {a b c d : FetchResponse}
    (h : equalizeOrdered a b = .reached c d) : c = a := by
  unfold equalizeOrdered at h
  split_ifs at h <;> (try split at h) <;>
    first
      | exact EqualizeOutcome.noConfusion h
      | (injection h with h1 h2; exact h1.symm)

/-- Whenever the ordered equalization reaches the `out` label, the two
metrics agree on start time: the resample branch overwrites the second's
start with the first's, and the pad branch requires equal starts. -/
theorem equalizeOrdered_reached_start {a b c d : FetchResponse}
    (h : equalizeOrdered a b = .reached c d) : c.startTime = d.startTime := by
  unfold equalizeOrdered at h
  split_ifs at h <;> (try split at h) <;>
    first
      | exact EqualizeOutcome.noConfusion h
      | (injection h with h1 h2; subst h1; subst h2; simp_all)

/-- Reaching the `out` label reduces the merge to the fill stage on the
reached pair. -/
theorem mergeFetchResponses_eq_fill {m1 m2 a b : FetchResponse}
    (h : equalizeFetchResponses m1 m2 = .reached a b) :
    mergeFetchResponses m1 m2 = fillStage a b := by
  unfold mergeFetchResponses
  rw [h]

/-- A pair that reaches the `out` label with differing start times must
have come through the equal-length branch, untouched. -/
theorem equalize_reached_of_start_ne {m1 m2 a b : FetchResponse}
    (h : equalizeFetchResponses m1 m2 = .reached a b)
    (hne : a.startTime ≠ b.startTime) :
    m1.values.length = m2.values.length ∧ a = m1 ∧ b = m2 := by
  unfold equalizeFetchResponses at h
  split_ifs at h with h1 h2
  · injection h with ha hb
    exact ⟨h1, ha.symm, hb.symm⟩
  · exact absurd (equalizeOrdered_reached_start h) hne
  · exact absurd (equalizeOrdered_reached_start h) hne

/-- C3.  If, after length equalization, the start times of the pair
differ, the pair-merge fails with `ErrResponseStartTimeMismatch` and
returns both metrics exactly as they were passed in — no sample of either
metric has been modified (such a pair necessarily took the equal-length
path, which mutates nothing). -/
theorem fetch_merge_start_time_mismatch {m1 m2 a b : FetchResponse}
    (heq : equalizeFetchResponses m1 m2 = .reached a b)
    (hne : a.startTime ≠ b.startTime) :
    mergeFetchResponses m1 m2 = .err .startTimeMismatch m1 m2 ∧ a = m1 ∧ b = m2 := by
  obtain ⟨hlen, ha, hb⟩ := equalize_reached_of_start_ne heq hne
  subst ha
  subst hb
  refine ⟨?_, rfl, rfl⟩
  rw [mergeFetchResponses_eq_fill heq]
  unfold fillStage
  rw [if_pos hne]

/-- C3 witness: two equal-length metrics with start times 0 and 60 reach
the start-time check untouched and the merge fails with the mismatch
sentinel, returning the untouched pair. -/
theorem fetch_merge_start_time_mismatch_witness :
    equalizeFetchResponses (mkMetric "x" 0 60 60 [v 1]) (mkMetric "x" 60 120 60 [v 2]) =
      .reached (mkMetric "x" 0 60 60 [v 1]) (mkMetric "x" 60 120 60 [v 2]) ∧
    mergeFetchResponses (mkMetric "x" 0 60 60 [v 1]) (mkMetric "x" 60 120 60 [v 2]) =
      .err .startTimeMismatch (mkMetric "x" 0 60 60 [v 1]) (mkMetric "x" 60 120 60 [v 2]) :=
  ⟨by decide,
   (@fetch_merge_start_time_mismatch
      (mkMetric "x" 0 60 60 [v 1]) (mkMetric "x" 60 120 60 [v 2])
      (mkMetric "x" 0 60 60 [v 1]) (mkMetric "x" 60 120 60 [v 2])
      (by decide) (by decide)).1⟩

/-- The other stage-selection equations of the merge. -/
theorem mergeFetchResponses_eq_err {m1 m2 c d : FetchResponse} {e : MergeError}
    (h : equalizeFetchResponses m1 m2 = .failed e c d) :
    mergeFetchResponses m1 m2 = .err e c d := by
  unfold mergeFetchResponses
  rw [h]

/-- Equalization panic propagates. -/
theorem mergeFetchResponses_eq_panic {m1 m2 : FetchResponse}
    (h : equalizeFetchResponses m1 m2 = .panic) :
    mergeFetchResponses m1 m2 = .panic := by
  unfold mergeFetchResponses
  rw [h]

/-- Equalization hang propagates. -/
theorem mergeFetchResponses_eq_hang {m1 m2 : FetchResponse}
    (h : equalizeFetchResponses m1 m2 = .hang) :
    mergeFetchResponses m1 m2 = .hang := by
  unfold mergeFetchResponses
  rw [h]

/-- The first metric reaching the `out` label is the reference metric:
the argument with the strictly longer value list (the first argument on
equal lengths). -/
theorem equalize_reached_ref {m1 m2 a b : FetchResponse}
    (h : equalizeFetchResponses m1 m2 = .reached a b) :
    a = if m1.values.length < m2.values.length then m2 else m1 := by
  unfold equalizeFetchResponses at h
  split_ifs at h with h1 h2
  · rw [if_neg (by omega)]
    injection h with ha hb
    exact ha.symm
  · simp only [swapFetchResponses] at h
    rw [if_pos h2]
    exact equalizeOrdered_reached_fst h
  · rw [if_neg (by omega)]
    exact equalizeOrdered_reached_fst h

/-- Dissection of a successful fill stage: the second metric is returned
untouched and the first carries the gap-filled values. -/
theorem fillStage_ok {c d a b : FetchResponse} (h : fillStage c d = .ok a b) :
    b = d ∧ ∃ vs, gapFill c.values d.values = some vs ∧ a = { c with values := vs } := by
  unfold fillStage at h
  split_ifs at h
  split at h
  · exact MergeOutcome.noConfusion h
  case _ vs hvs =>
    injection h with h1 h2
    exact ⟨h2.symm, vs, hvs, h1.symm⟩

/-- A successful gap fill preserves the length of the first list. -/
theorem gapFill_length : ∀ (v1 v2 r : List Sample),
    gapFill v1 v2 = some r → r.length = v1.length := by
  intro v1
  induction v1 with
  | nil =>
    intro v2 r h
    simp [gapFill] at h
    subst h
    rfl
  | cons x xs ih =>
    intro v2 r h
    rcases x with _ | q <;> rcases v2 with _ | ⟨y, ys⟩
    · simp [gapFill] at h
    · simp only [gapFill, Option.map_eq_some'] at h
      obtain ⟨r2, hr2, hmap⟩ := h
      subst hmap
      simp [ih _ _ hr2]
    · simp only [gapFill, Option.map_eq_some'] at h
      obtain ⟨r2, hr2, hmap⟩ := h
      subst hmap
      simp [ih _ _ hr2]
    · simp only [gapFill, Option.map_eq_some'] at h
      obtain ⟨r2, hr2, hmap⟩ := h
      subst hmap
      simp [ih _ _ hr2]

/-- Pointwise content of a successful gap fill: non-NaN entries of the
first list survive; at NaN entries the result is the second list's entry
at the same index. -/
theorem gapFill_get : ∀ (v1 v2 r : List Sample), gapFill v1 v2 = some r →
    ∀ i : Nat,
      (∀ q : ℚ, v1[i]? = some (some q) → r[i]? = some (some q)) ∧
      (v1[i]? = some none → r[i]? = v2[i]?) := by
  intro v1
  induction v1 with
  | nil =>
    intro v2 r h i
    constructor
    · intro q hq
      simp at hq
    · intro hq
      simp at hq
  | cons x xs ih =>
    intro v2 r h i
    rcases x with _ | q <;> rcases v2 with _ | ⟨y, ys⟩
    · simp [gapFill] at h
    · simp only [gapFill, Option.map_eq_some'] at h
      obtain ⟨r2, hr2, hmap⟩ := h
      subst hmap
      cases i with
      | zero =>
        constructor
        · intro q hq
          simp at hq
        · intro _
          simp
      | succ n =>
        simp only [List.getElem?_cons_succ]
        exact ih ys r2 hr2 n
    · simp only [gapFill, Option.map_eq_some'] at h
      obtain ⟨r2, hr2, hmap⟩ := h
      subst hmap
      cases i with
      | zero =>
        constructor
        · intro q2 hq
          simp at hq
          simp [hq]
        · intro hq
          simp at hq
      | succ n =>
        simp only [List.getElem?_cons_succ]
        exact ih [] r2 hr2 n
    · simp only [gapFill, Option.map_eq_some'] at h
      obtain ⟨r2, hr2, hmap⟩ := h
      subst hmap
      cases i with
      | zero =>
        constructor
        · intro q2 hq
          simp at hq
          simp [hq]
        · intro hq
          simp at hq
      | succ n =>
        simp only [List.getElem?_cons_succ]
        exact ih ys r2 hr2 n

/-- C2 (amended).  For every pair that merges without error, let R be the
reference metric after length equalization — the argument with the
strictly longer value list, or the first argument on equal lengths.  The
merged series has R's length; wherever R was non-NaN the merged value is
R's value, and wherever R was NaN the merged value is the grid-aligned
value of the other metric (the equalized second metric, which the merge
returns as its final second component). -/
theorem fetch_gap_fill_reference_wins {m1 m2 a b : FetchResponse}
    (h : mergeFetchResponses m1 m2 = .ok a b) :
    a.values.length =
      (if m1.values.length < m2.values.length then m2 else m1).values.length ∧
    ∀ i : Nat,
      (∀ q : ℚ,
        (if m1.values.length < m2.values.length then m2 else m1).values[i]? =
          some (some q) → a.values[i]? = some (some q)) ∧
      ((if m1.values.length < m2.values.length then m2 else m1).values[i]? =
          some none → a.values[i]? = b.values[i]?) := by
  cases heq : equalizeFetchResponses m1 m2 with
  | reached c d =>
    rw [mergeFetchResponses_eq_fill heq] at h
    obtain ⟨hbd, vs, hvs, ha⟩ := fillStage_ok h
    have hc := equalize_reached_ref heq
    rw [← hc]
    subst hbd
    subst ha
    simp only
    constructor
    · exact gapFill_length _ _ _ hvs
    · intro i
      exact gapFill_get _ _ _ hvs i
  | failed e c d =>
    rw [mergeFetchResponses_eq_err heq] at h
    exact MergeOutcome.noConfusion h
  | panic =>
    rw [mergeFetchResponses_eq_panic heq] at h
    exact MergeOutcome.noConfusion h
  | hang =>
    rw [mergeFetchResponses_eq_hang heq] at h
    exact MergeOutcome.noConfusion h

/-- C2 amended-theorem witness: an equal-length pair; the first (reference)
metric's NaN at index 0 is filled from the second, its non-NaN at index 1
survives. -/
theorem fetch_gap_fill_reference_wins_witness :
    mergeFetchResponses (mkMetric "p" 0 120 60 [nan, v 2])
        (mkMetric "q" 0 120 60 [v 7, nan]) =
      .ok (mkMetric "p" 0 120 60 [v 7, v 2]) (mkMetric "q" 0 120 60 [v 7, nan]) ∧
    ((mkMetric "p" 0 120 60 [v 7, v 2]).values.length =
      (if (mkMetric "p" 0 120 60 [nan, v 2]).values.length <
          (mkMetric "q" 0 120 60 [v 7, nan]).values.length
        then mkMetric "q" 0 120 60 [v 7, nan]
        else mkMetric "p" 0 120 60 [nan, v 2]).values.length ∧
    ∀ i : Nat,
      (∀ q : ℚ,
        (if (mkMetric "p" 0 120 60 [nan, v 2]).values.length <
            (mkMetric "q" 0 120 60 [v 7, nan]).values.length
          then mkMetric "q" 0 120 60 [v 7, nan]
          else mkMetric "p" 0 120 60 [nan, v 2]).values[i]? =
            some (some q) →
          (mkMetric "p" 0 120 60 [v 7, v 2]).values[i]? = some (some q)) ∧
      ((if (mkMetric "p" 0 120 60 [nan, v 2]).values.length <
            (mkMetric "q" 0 120 60 [v 7, nan]).values.length
          then mkMetric "q" 0 120 60 [v 7, nan]
          else mkMetric "p" 0 120 60 [nan, v 2]).values[i]? = some none →
          (mkMetric "p" 0 120 60 [v 7, v 2]).values[i]? =
            (mkMetric "q" 0 120 60 [v 7, nan]).values[i]?)) :=
  ⟨by decide,
   @fetch_gap_fill_reference_wins
     (mkMetric "p" 0 120 60 [nan, v 2]) (mkMetric "q" 0 120 60 [v 7, nan])
     (mkMetric "p" 0 120 60 [v 7, v 2]) (mkMetric "q" 0 120 60 [v 7, nan])
     (by decide)⟩

/-! ## Find-merge lemmas -/

/-- The seen-set key string of a (metric name, match path) pair. -/
def keyOf (p : String × String) : String := p.1 ++ "." ++ p.2

/-- Unfolding `pairsOf` over cons. -/
theorem pairsOf_cons (m : GlobMetric) (ms : List GlobMetric) :
    pairsOf (m :: ms) =
      (m.matchList.map (fun mm => (m.name, mm.path))) ++ pairsOf ms := by
  simp [pairsOf]

/-- `pairsOf` distributes over append. -/
theorem pairsOf_append (ms ns : List GlobMetric) :
    pairsOf (ms ++ ns) = pairsOf ms ++ pairsOf ns := by
  simp [pairsOf]

/-- The initial seen set is exactly the keys of first's pairs. -/
theorem seenKeys_eq_map (ms : List GlobMetric) :
    seenKeys ms = (pairsOf ms).map keyOf := by
  simp only [seenKeys, pairsOf, List.map_flatMap, List.map_map]
  rfl

/-- Every pair's metric name occurs among the metric names. -/
theorem pair_name_mem {p : String × String} :
    ∀ {ms : List GlobMetric}, p ∈ pairsOf ms → p.1 ∈ namesOf ms := by
  intro ms
  induction ms with
  | nil => intro h; simp [pairsOf] at h
  | cons m ms ih =>
    intro h
    rw [pairsOf_cons, List.mem_append] at h
    rcases h with h | h
    · obtain ⟨mm, _, rfl⟩ := List.mem_map.mp h
      simp [namesOf]
    · simp only [namesOf, List.map_cons, List.mem_cons]
      exact Or.inr (ih h)

/-- Pairs of a single metric are nodup when its match paths are. -/
theorem nodup_pairs_single {m : GlobMetric}
    (h : (m.matchList.map GlobMatch.path).Nodup) :
    ((m.matchList.map (fun mm => (m.name, mm.path)))).Nodup := by
  have heq : (m.matchList.map (fun mm => (m.name, mm.path))) =
      (m.matchList.map GlobMatch.path).map (fun pth => (m.name, pth)) := by
    rw [List.map_map]
    rfl
  rw [heq]
  exact h.map (fun a b hab => congrArg Prod.snd hab)

/-- Pairs of a whole response are nodup when the metric names are nodup
and each metric's match paths are nodup. -/
theorem nodup_pairsOf : ∀ {ms : List GlobMetric}, (namesOf ms).Nodup →
    (∀ m ∈ ms, (m.matchList.map GlobMatch.path).Nodup) → (pairsOf ms).Nodup := by
  intro ms
  induction ms with
  | nil => intro _ _; simp [pairsOf]
  | cons m ms ih =>
    intro hn hp
    rw [pairsOf_cons]
    simp only [namesOf, List.map_cons, List.nodup_cons] at hn
    refine List.Nodup.append (nodup_pairs_single (hp m (by simp)))
      (ih hn.2 (fun m2 h2 => hp m2 (by simp [h2]))) ?_
    intro p hp1 hp2
    obtain ⟨mm, _, rfl⟩ := List.mem_map.mp hp1
    exact hn.1 (pair_name_mem hp2)

/-- Appending one match to the metric at position i permutes the pair
list to the old pairs followed by the new pair. -/
theorem perm_append_swap {α : Type} (a b : List α) (e : α) :
    List.Perm ((a ++ [e]) ++ b) ((a ++ b) ++ [e]) := by
  rw [List.append_assoc, List.append_assoc]
  exact List.Perm.append_left a List.perm_append_comm

/-- Appending one match to the metric at position i permutes the pair
list to the old pairs followed by the new pair. -/
theorem pairsOf_set_append :
    ∀ {ms : List GlobMetric} {i : Nat} {mi : GlobMetric}, ms[i]? = some mi →
    ∀ (mm : GlobMatch),
    List.Perm (pairsOf (ms.set i { mi with matchList := mi.matchList ++ [mm] }))
      (pairsOf ms ++ [(mi.name, mm.path)]) := by
  intro ms
  induction ms with
  | nil => intro i mi h mm; simp at h
  | cons x xs ih =>
    intro i mi h mm
    cases i with
    | zero =>
      simp only [List.getElem?_cons_zero, Option.some.injEq] at h
      subst h
      simp only [List.set_cons_zero, pairsOf_cons, List.map_append, List.map_cons,
        List.map_nil]
      exact perm_append_swap _ _ _
    | succ n =>
      simp only [List.getElem?_cons_succ] at h
      simp only [List.set_cons_succ, pairsOf_cons, List.append_assoc]
      exact List.Perm.append_left _ (ih h mm)

/-- Appending matches to a metric does not change the name list. -/
theorem namesOf_set :
    ∀ {ms : List GlobMetric} {i : Nat} {mi : GlobMetric}, ms[i]? = some mi →
    ∀ (ml : List GlobMatch),
    namesOf (ms.set i { mi with matchList := ml }) = namesOf ms := by
  intro ms
  induction ms with
  | nil => intro i mi h ml; simp at h
  | cons x xs ih =>
    intro i mi h ml
    cases i with
    | zero =>
      simp only [List.getElem?_cons_zero, Option.some.injEq] at h
      subst h
      simp [namesOf]
    | succ n =>
      simp only [List.getElem?_cons_succ] at h
      rw [List.set_cons_succ]
      show x.name :: namesOf (xs.set n { mi with matchList := ml }) =
        x.name :: namesOf xs
      rw [ih h ml]

/-- A successful name lookup returns a position holding that name. -/
theorem lastGlobIdxByName_some {ms : List GlobMetric} {n : String} {i : Nat}
    (h : lastGlobIdxByName ms n = some i) :
    ∃ mi, ms[i]? = some mi ∧ mi.name = n := by
  unfold lastGlobIdxByName at h
  have hmem := List.mem_of_mem_getLast? h
  rw [List.mem_filterMap] at hmem
  obtain ⟨⟨j, m⟩, hjm, hf⟩ := hmem
  dsimp only at hf
  split_ifs at hf with hname
  · injection hf with hf
    subst hf
    rw [List.mem_enum_iff_getElem?] at hjm
    exact ⟨m, hjm, hname⟩

/-- A failed name lookup means the name is absent. -/
theorem lastGlobIdxByName_none {ms : List GlobMetric} {n : String} :
    lastGlobIdxByName ms n = none ↔ n ∉ namesOf ms := by
  unfold lastGlobIdxByName
  rw [List.getLast?_eq_none_iff, List.filterMap_eq_nil_iff]
  constructor
  · intro h hmem
    rw [namesOf, List.mem_map] at hmem
    obtain ⟨m, hm, hname⟩ := hmem
    obtain ⟨j, hj⟩ := List.mem_iff_getElem?.mp hm
    have hje : (j, m) ∈ ms.enum := List.mem_enum_iff_getElem?.mpr hj
    have := h (j, m) hje
    simp [hname] at this
  · intro h p hp
    obtain ⟨j, m⟩ := p
    rw [List.mem_enum_iff_getElem?] at hp
    dsimp only
    split_ifs with hname
    · exact absurd (by
        rw [namesOf, List.mem_map]
        exact ⟨m, List.getElem?_mem hp, hname⟩) h
    · rfl

/-- The invariant the find-merge metric loop maintains over its state
`(ms, seen)`, relative to the name set of the original first response and
the universe U of pairs the key-injectivity hypothesis covers:
every seen key is realized by a pair of `ms`; every pair of `ms` whose
metric name is an original first-response name has its key in `seen`;
the pairs of `ms` are duplicate-free, inside U, and carry names of `ms`. -/
def MergeInv (fm0names : List String) (U : List (String × String))
    (ms : List GlobMetric) (seen : List String) : Prop :=
  (∀ k ∈ seen, ∃ p ∈ pairsOf ms, keyOf p = k) ∧
  (∀ p ∈ pairsOf ms, p.1 ∈ fm0names → keyOf p ∈ seen) ∧
  (pairsOf ms).Nodup ∧
  (∀ p ∈ pairsOf ms, p ∈ U) ∧
  (∀ p ∈ pairsOf ms, p.1 ∈ namesOf ms)

/-- Behaviour of the inner match loop: it preserves the invariant and the
name list, and its pair set is the old pair set united (duplicate-free)
with the processed metric's pairs. -/
theorem findMatchLoop_spec (fm0names : List String) (U : List (String × String))
    (hinj : ∀ p ∈ U, ∀ q ∈ U, keyOf p = keyOf q → p = q)
    (i : Nat) (nm : String) (hnm : nm ∈ fm0names) :
    ∀ (ml : List GlobMatch) (ms : List GlobMetric) (seen : List String),
    (∀ mm ∈ ml, ((nm, mm.path) : String × String) ∈ U) →
    (∃ mi, ms[i]? = some mi ∧ mi.name = nm) →
    MergeInv fm0names U ms seen →
    MergeInv fm0names U (findMatchLoop i ml ms seen).1 (findMatchLoop i ml ms seen).2 ∧
    namesOf (findMatchLoop i ml ms seen).1 = namesOf ms ∧
    (∀ p, p ∈ pairsOf (findMatchLoop i ml ms seen).1 ↔
      p ∈ pairsOf ms ∨ ∃ mm ∈ ml, p = (nm, mm.path)) := by
  intro ml
  induction ml with
  | nil =>
    intro ms seen hmlU hpos hinv
    simp only [findMatchLoop]
    exact ⟨hinv, by trivial, fun p => by simp⟩
  | cons mm rest ih =>
    intro ms seen hmlU hpos hinv
    obtain ⟨mi, hmi, hmname⟩ := hpos
    subst hmname
    obtain ⟨hS2, hS3, hnd, hU, hnames⟩ := hinv
    by_cases hkey : (mi.name ++ "." ++ mm.path) ∈ seen
    · -- the key is already seen: skip the match
      have heq : findMatchLoop i (mm :: rest) ms seen = findMatchLoop i rest ms seen := by
        simp only [findMatchLoop, hmi]
        rw [if_pos hkey]
      rw [heq]
      have hres := ih ms seen (fun mm2 h2 => hmlU mm2 (by simp [h2]))
        ⟨mi, hmi, rfl⟩ ⟨hS2, hS3, hnd, hU, hnames⟩
      refine ⟨hres.1, hres.2.1, fun p => ?_⟩
      rw [hres.2.2 p]
      constructor
      · rintro (h | ⟨mm2, h2, rfl⟩)
        · exact Or.inl h
        · exact Or.inr ⟨mm2, by simp [h2], rfl⟩
      · rintro (h | ⟨mm2, h2, rfl⟩)
        · exact Or.inl h
        · rcases List.mem_cons.mp h2 with h2 | h2
          · subst h2
            left
            obtain ⟨p2, hp2mem, hp2key⟩ := hS2 _ hkey
            have hp2e : p2 = (mi.name, mm2.path) :=
              hinj p2 (hU p2 hp2mem) (mi.name, mm2.path) (hmlU mm2 (by simp))
                (by rw [hp2key]; rfl)
            rwa [hp2e] at hp2mem
          · exact Or.inr ⟨mm2, h2, rfl⟩
    · -- new key: append the match at position i and record the key
      have heq : findMatchLoop i (mm :: rest) ms seen =
          findMatchLoop i rest (ms.set i { mi with matchList := mi.matchList ++ [mm] })
            (seen ++ [mi.name ++ "." ++ mm.path]) := by
        simp only [findMatchLoop, hmi]
        rw [if_neg hkey]
      rw [heq]
      have hperm := pairsOf_set_append hmi mm
      have hmemset : ∀ p, p ∈ pairsOf
          (ms.set i { mi with matchList := mi.matchList ++ [mm] }) ↔
          p ∈ pairsOf ms ∨ p = (mi.name, mm.path) := by
        intro p
        rw [hperm.mem_iff]
        simp
      have hnew : ((mi.name, mm.path) : String × String) ∉ pairsOf ms := by
        intro hmem
        exact hkey (hS3 _ hmem hnm)
      have hnmset := namesOf_set hmi (mi.matchList ++ [mm])
      have hilt : i < ms.length := by
        rw [List.getElem?_eq_some] at hmi
        exact hmi.1
      have hres := ih (ms.set i { mi with matchList := mi.matchList ++ [mm] })
        (seen ++ [mi.name ++ "." ++ mm.path])
        (fun mm2 h2 => hmlU mm2 (by simp [h2]))
        ⟨{ mi with matchList := mi.matchList ++ [mm] },
          List.getElem?_set_self hilt, rfl⟩
        ⟨?_, ?_, ?_, ?_, ?_⟩
      · refine ⟨hres.1, hres.2.1.trans hnmset, fun p => ?_⟩
        rw [hres.2.2 p]
        constructor
        · rintro (h | ⟨mm2, h2, rfl⟩)
          · rcases (hmemset p).mp h with h | h
            · exact Or.inl h
            · exact Or.inr ⟨mm, by simp, h⟩
          · exact Or.inr ⟨mm2, by simp [h2], rfl⟩
        · rintro (h | ⟨mm2, h2, rfl⟩)
          · exact Or.inl ((hmemset p).mpr (Or.inl h))
          · rcases List.mem_cons.mp h2 with h2 | h2
            · subst h2
              exact Or.inl ((hmemset _).mpr (Or.inr rfl))
            · exact Or.inr ⟨mm2, h2, rfl⟩
      · -- seen keys are realized
        intro k hk
        rcases List.mem_append.mp hk with hk | hk
        · obtain ⟨p2, hp2, hp2k⟩ := hS2 k hk
          exact ⟨p2, (hmemset p2).mpr (Or.inl hp2), hp2k⟩
        · have hk2 : k = mi.name ++ "." ++ mm.path := by simpa using hk
          subst hk2
          exact ⟨(mi.name, mm.path), (hmemset _).mpr (Or.inr rfl), rfl⟩
      · -- first-named pairs have seen keys
        intro p hp hp1
        rcases (hmemset p).mp hp with hp | hp
        · exact List.mem_append.mpr (Or.inl (hS3 p hp hp1))
        · subst hp
          exact List.mem_append.mpr (Or.inr (by simp [keyOf]))
      · -- nodup
        refine hperm.symm.nodup (List.Nodup.append hnd (List.nodup_singleton _) ?_)
        intro p hp1 hp2
        have hp2e : p = (mi.name, mm.path) := by simpa using hp2
        subst hp2e
        exact hnew hp1
      · -- pairs stay inside U
        intro p hp
        rcases (hmemset p).mp hp with hp | hp
        · exact hU p hp
        · subst hp
          exact hmlU mm (by simp)
      · -- pair names are metric names
        intro p hp
        rw [hnmset]
        rcases (hmemset p).mp hp with hp | hp
        · exact hnames p hp
        · subst hp
          exact List.mem_map_of_mem GlobMetric.name (List.getElem?_mem hmi)

/-- Equal name lists give positionally name-matching entries. -/
theorem getElem?_name_of_namesOf_eq {a b : List GlobMetric}
    (h : namesOf a = namesOf b) {j : Nat} {mi : GlobMetric}
    (hj : b[j]? = some mi) : ∃ mi2, a[j]? = some mi2 ∧ mi2.name = mi.name := by
  have h1 : (a.map GlobMetric.name)[j]? = (b.map GlobMetric.name)[j]? := by
    show (namesOf a)[j]? = (namesOf b)[j]?
    rw [h]
  rw [List.getElem?_map, List.getElem?_map, hj] at h1
  cases ha : a[j]? with
  | none =>
    rw [ha] at h1
    simp at h1
  | some mi2 =>
    rw [ha] at h1
    simp at h1
    exact ⟨mi2, rfl, h1⟩

/-- Behaviour of the outer metric loop: starting from a state satisfying
the invariant, the final pair list is duplicate-free and is, membership-
wise, the union of the state's pairs and the remaining metrics' pairs. -/
theorem findMetricLoop_spec (fm0 : List GlobMetric) (U : List (String × String))
    (hinj : ∀ p ∈ U, ∀ q ∈ U, keyOf p = keyOf q → p = q) :
    ∀ (rest ms : List GlobMetric) (seen : List String),
    MergeInv (namesOf fm0) U ms seen →
    (∀ p ∈ pairsOf rest, p ∈ U) →
    (∀ m ∈ rest, m.name ∉ namesOf fm0 → m.name ∉ namesOf ms) →
    (namesOf rest).Nodup →
    (∀ m ∈ rest, (m.matchList.map GlobMatch.path).Nodup) →
    (∀ n j, lastGlobIdxByName fm0 n = some j →
      ∃ mi, ms[j]? = some mi ∧ mi.name = n) →
    ((pairsOf (findMetricLoop (lastGlobIdxByName fm0) rest ms seen)).Nodup ∧
     ∀ p, p ∈ pairsOf (findMetricLoop (lastGlobIdxByName fm0) rest ms seen) ↔
       p ∈ pairsOf ms ∨ p ∈ pairsOf rest) := by
  intro rest
  induction rest with
  | nil =>
    intro ms seen hinv _ _ _ _ _
    simp only [findMetricLoop]
    exact ⟨hinv.2.2.1, fun p => by simp [pairsOf]⟩
  | cons m rest2 ih =>
    intro ms seen hinv hrestU hfresh hrestnd hrestpaths hlookup
    have hrestnd2 : (namesOf rest2).Nodup := by
      have : (m.name :: namesOf rest2).Nodup := hrestnd
      exact (List.nodup_cons.mp this).2
    cases hl : lastGlobIdxByName fm0 m.name with
    | none =>
      -- m's name is new: the metric is appended whole
      have hnotin : m.name ∉ namesOf fm0 := lastGlobIdxByName_none.mp hl
      have heq : findMetricLoop (lastGlobIdxByName fm0) (m :: rest2) ms seen =
          findMetricLoop (lastGlobIdxByName fm0) rest2 (ms ++ [m]) seen := by
        simp only [findMetricLoop, hl]
      rw [heq]
      obtain ⟨hS2, hS3, hnd, hU, hnames⟩ := hinv
      have hfreshm : m.name ∉ namesOf ms := hfresh m (by simp) hnotin
      have hpairsapp : ∀ p, p ∈ pairsOf (ms ++ [m]) ↔
          p ∈ pairsOf ms ∨ ∃ mm ∈ m.matchList, p = (m.name, mm.path) := by
        intro p
        rw [pairsOf_append, List.mem_append, pairsOf_cons]
        simp [pairsOf, eq_comm]
      have hnamesapp : namesOf (ms ++ [m]) = namesOf ms ++ [m.name] := by
        simp [namesOf]
      have hres := ih (ms ++ [m]) seen
        ⟨fun k hk => by
            obtain ⟨p2, hp2, hk2⟩ := hS2 k hk
            exact ⟨p2, (hpairsapp p2).mpr (Or.inl hp2), hk2⟩,
         fun p hp hp1 => by
            rcases (hpairsapp p).mp hp with hp | ⟨mm, _, rfl⟩
            · exact hS3 p hp hp1
            · exact absurd hp1 hnotin,
         by
            rw [pairsOf_append]
            refine List.Nodup.append hnd ?_ ?_
            · rw [pairsOf_cons]
              simpa [pairsOf] using nodup_pairs_single (hrestpaths m (by simp))
            · intro p hp1 hp2
              rw [pairsOf_cons] at hp2
              simp only [pairsOf, List.flatMap_nil, List.append_nil] at hp2
              obtain ⟨mm, _, rfl⟩ := List.mem_map.mp hp2
              exact hfreshm (pair_name_mem hp1),
         fun p hp => by
            rcases (hpairsapp p).mp hp with hp | ⟨mm, hmm, rfl⟩
            · exact hU p hp
            · refine hrestU (m.name, mm.path) ?_
              rw [pairsOf_cons, List.mem_append]
              exact Or.inl (List.mem_map_of_mem _ hmm),
         fun p hp => by
            rw [hnamesapp]
            rcases (hpairsapp p).mp hp with hp | ⟨mm, hmm, rfl⟩
            · exact List.mem_append.mpr (Or.inl (pair_name_mem hp))
            · simp⟩
        (fun p hp => hrestU p (by rw [pairsOf_cons, List.mem_append]; exact Or.inr hp))
        (fun m2 hm2 hm2name => by
            rw [hnamesapp]
            intro hmem
            rcases List.mem_append.mp hmem with hmem | hmem
            · exact hfresh m2 (by simp [hm2]) hm2name hmem
            · have hm2m : m2.name = m.name := by simpa using hmem
              have : m.name ∉ namesOf rest2 := by
                have := List.nodup_cons.mp (hrestnd : (m.name :: namesOf rest2).Nodup)
                exact this.1
              exact this (hm2m ▸ List.mem_map_of_mem GlobMetric.name hm2))
        hrestnd2
        (fun m2 hm2 => hrestpaths m2 (by simp [hm2]))
        (fun n j hnj => by
            obtain ⟨mi, hmi, hni⟩ := hlookup n j hnj
            have hjl : j < ms.length := by
              rw [List.getElem?_eq_some] at hmi
              exact hmi.1
            exact ⟨mi, by rw [List.getElem?_append_left hjl]; exact hmi, hni⟩)
      refine ⟨hres.1, fun p => ?_⟩
      rw [hres.2 p, hpairsapp p, pairsOf_cons, List.mem_append]
      constructor
      · rintro ((h | ⟨mm, hmm, rfl⟩) | h)
        · exact Or.inl h
        · exact Or.inr (Or.inl (List.mem_map_of_mem _ hmm))
        · exact Or.inr (Or.inr h)
      · rintro (h | (h | h))
        · exact Or.inl (Or.inl h)
        · obtain ⟨mm, hmm, rfl⟩ := List.mem_map.mp h
          exact Or.inl (Or.inr ⟨mm, hmm, rfl⟩)
        · exact Or.inr h
    | some j =>
      -- m's name is an original first name: inner match loop at position j
      obtain ⟨mi0, hmi0, hname0⟩ := hlookup m.name j hl
      have hnm : m.name ∈ namesOf fm0 := by
        obtain ⟨mf, hmf, hmfname⟩ := lastGlobIdxByName_some hl
        exact hmfname ▸ List.mem_map_of_mem GlobMetric.name (List.getElem?_mem hmf)
      have heq : findMetricLoop (lastGlobIdxByName fm0) (m :: rest2) ms seen =
          findMetricLoop (lastGlobIdxByName fm0) rest2
            (findMatchLoop j m.matchList ms seen).1
            (findMatchLoop j m.matchList ms seen).2 := by
        simp only [findMetricLoop, hl]
      rw [heq]
      have hml := findMatchLoop_spec (namesOf fm0) U hinj j m.name hnm
        m.matchList ms seen
        (fun mm hmm => hrestU (m.name, mm.path)
          (by rw [pairsOf_cons, List.mem_append]
              exact Or.inl (List.mem_map_of_mem _ hmm)))
        ⟨mi0, hmi0, hname0⟩ hinv
      have hres := ih (findMatchLoop j m.matchList ms seen).1
        (findMatchLoop j m.matchList ms seen).2
        hml.1
        (fun p hp => hrestU p (by rw [pairsOf_cons, List.mem_append]; exact Or.inr hp))
        (fun m2 hm2 hm2name => by
            rw [hml.2.1]
            exact hfresh m2 (by simp [hm2]) hm2name)
        hrestnd2
        (fun m2 hm2 => hrestpaths m2 (by simp [hm2]))
        (fun n j2 hnj => by
            obtain ⟨mi, hmi, hni⟩ := hlookup n j2 hnj
            obtain ⟨mi2, hmi2, hni2⟩ := getElem?_name_of_namesOf_eq hml.2.1 hmi
            exact ⟨mi2, hmi2, hni2.trans hni⟩)
      refine ⟨hres.1, fun p => ?_⟩
      rw [hres.2 p, hml.2.2 p, pairsOf_cons, List.mem_append]
      constructor
      · rintro ((h | ⟨mm, hmm, rfl⟩) | h)
        · exact Or.inl h
        · exact Or.inr (Or.inl (List.mem_map_of_mem _ hmm))
        · exact Or.inr (Or.inr h)
      · rintro (h | (h | h))
        · exact Or.inl (Or.inl h)
        · obtain ⟨mm, hmm, rfl⟩ := List.mem_map.mp h
          exact Or.inl (Or.inr ⟨mm, hmm, rfl⟩)
        · exact Or.inr h

/-- The initial loop state — first's metrics with first's key set —
satisfies the invariant. -/
theorem initMergeInv (fm : List GlobMetric) (U : List (String × String))
    (hn : (namesOf fm).Nodup)
    (hp : ∀ m ∈ fm, (m.matchList.map GlobMatch.path).Nodup)
    (hU0 : ∀ p ∈ pairsOf fm, p ∈ U) :
    MergeInv (namesOf fm) U fm (seenKeys fm) := by
  refine ⟨?_, ?_, nodup_pairsOf hn hp, hU0, fun p hp2 => pair_name_mem hp2⟩
  · intro k hk
    rw [seenKeys_eq_map, List.mem_map] at hk
    obtain ⟨p, hp2, rfl⟩ := hk
    exact ⟨p, hp2, rfl⟩
  · intro p hp2 _
    rw [seenKeys_eq_map]
    exact List.mem_map_of_mem keyOf hp2

/-- With an error-free second response, `ServerFindResponse.Merge` leaves
exactly the metric-loop result in first's metrics. -/
theorem serverFindResponseMerge_metrics {A B : ServerFindResponse}
    (hB : B.err = none) :
    (serverFindResponseMerge A B).1.metrics =
      findMetricLoop (lastGlobIdxByName A.metrics) B.metrics A.metrics
        (seenKeys A.metrics) := by
  unfold serverFindResponseMerge
  rw [hB]
  dsimp only
  split_ifs <;> rfl

/-- C8 (amended).  For every pair of error-free find responses whose
metric names are unique, whose per-metric match paths are unique, and for
which the key encoding `name ++ "." ++ path` is injective on the pairs of
the two responses (no cross-metric key collision), the merged response
has no duplicate (metric name, match path) pair and the two merge orders
produce the same set of pairs. -/
theorem find_merge_union (A B : ServerFindResponse)
    (hAerr : A.err = none) (hBerr : B.err = none)
    (hAnames : (namesOf A.metrics).Nodup) (hBnames : (namesOf B.metrics).Nodup)
    (hApaths : ∀ m ∈ A.metrics, (m.matchList.map GlobMatch.path).Nodup)
    (hBpaths : ∀ m ∈ B.metrics, (m.matchList.map GlobMatch.path).Nodup)
    (hinj : ∀ p ∈ pairsOf A.metrics ++ pairsOf B.metrics,
            ∀ q ∈ pairsOf A.metrics ++ pairsOf B.metrics,
            keyOf p = keyOf q → p = q) :
    (pairsOf (serverFindResponseMerge A B).1.metrics).Nodup ∧
    ∀ p, p ∈ pairsOf (serverFindResponseMerge A B).1.metrics ↔
         p ∈ pairsOf (serverFindResponseMerge B A).1.metrics := by
  have hinj2 : ∀ p ∈ pairsOf B.metrics ++ pairsOf A.metrics,
      ∀ q ∈ pairsOf B.metrics ++ pairsOf A.metrics, keyOf p = keyOf q → p = q :=
    fun p hp q hq =>
      hinj p (List.mem_append.mpr (List.mem_append.mp hp).symm)
        q (List.mem_append.mpr (List.mem_append.mp hq).symm)
  have hAB := findMetricLoop_spec A.metrics
    (pairsOf A.metrics ++ pairsOf B.metrics) hinj
    B.metrics A.metrics (seenKeys A.metrics)
    (initMergeInv A.metrics _ hAnames hApaths
      (fun p hp => List.mem_append.mpr (Or.inl hp)))
    (fun p hp => List.mem_append.mpr (Or.inr hp))
    (fun m _ h => h)
    hBnames hBpaths
    (fun n j h => lastGlobIdxByName_some h)
  have hBA := findMetricLoop_spec B.metrics
    (pairsOf B.metrics ++ pairsOf A.metrics) hinj2
    A.metrics B.metrics (seenKeys B.metrics)
    (initMergeInv B.metrics _ hBnames hBpaths
      (fun p hp => List.mem_append.mpr (Or.inl hp)))
    (fun p hp => List.mem_append.mpr (Or.inr hp))
    (fun m _ h => h)
    hAnames hApaths
    (fun n j h => lastGlobIdxByName_some h)
  rw [serverFindResponseMerge_metrics hBerr, serverFindResponseMerge_metrics hAerr]
  refine ⟨hAB.1, fun p => ?_⟩
  rw [hAB.2 p, hBA.2 p]
  tauto

/-- C8 amended-theorem witness: two collision-free concrete responses;
both merge orders yield the same duplicate-free pair set. -/
theorem find_merge_union_witness :
    (pairsOf (serverFindResponseMerge
        ⟨[⟨"a", [⟨"x", true⟩]⟩], Stats.zero, none⟩
        ⟨[⟨"b", [⟨"y", false⟩]⟩, ⟨"a", [⟨"z", true⟩]⟩], Stats.zero, none⟩).1.metrics).Nodup ∧
    ∀ p, p ∈ pairsOf (serverFindResponseMerge
        ⟨[⟨"a", [⟨"x", true⟩]⟩], Stats.zero, none⟩
        ⟨[⟨"b", [⟨"y", false⟩]⟩, ⟨"a", [⟨"z", true⟩]⟩], Stats.zero, none⟩).1.metrics ↔
      p ∈ pairsOf (serverFindResponseMerge
        ⟨[⟨"b", [⟨"y", false⟩]⟩, ⟨"a", [⟨"z", true⟩]⟩], Stats.zero, none⟩
        ⟨[⟨"a", [⟨"x", true⟩]⟩], Stats.zero, none⟩).1.metrics :=
  find_merge_union
    ⟨[⟨"a", [⟨"x", true⟩]⟩], Stats.zero, none⟩
    ⟨[⟨"b", [⟨"y", false⟩]⟩, ⟨"a", [⟨"z", true⟩]⟩], Stats.zero, none⟩
    rfl rfl (by decide) (by decide) (by decide) (by decide) (by decide)

end Carbonzipper
